import Mathlib

/-!
Verification of the korean_flashcards repository.

The repository contains three Python scripts:
* `quizlet_convert.py` — converts Quizlet tab-separated `.csv` files in place
  (`quote_field`, `convert_file`, `convert_folder`);
* `script.py` — an older in-place tab converter (`quote_field`, `convert_folder`);
* `txt_to_csv.py` — converts `=`-delimited `.txt` files to CSV
  (`parse_line`, `read_text`, `write_csv`, `convert_folder`).

Strings are embedded as `List Char`.  Python's `str.strip()`, `str.rstrip(chars)`,
`str.split(sep)`, `str.split(sep, 1)`, `str.replace` and f-string concatenation are
translated as executable list functions below.  File contents are `List Char`;
the physical-line iteration of a text file opened with `newline=""` (which splits
on `\n`, `\r` and `\r\n`, keeping the terminator) is `pysplitlinesKeep`.
The in-place converters are modelled as functions from the original destination
content (plus an optional injected I/O-error position) to the resulting
file-system state and per-file outcome.
-/

/-- Python `str.strip()` whitespace predicate, for the ASCII whitespace
characters that can occur in these text files. -/
def pyIsSpace (c : Char) : Bool :=
  c = ' ' || c = '\t' || c = '\n' || c = '\r' || c = '\x0B' || c = '\x0C'

/-- Characters stripped by `raw.rstrip("\r\n")` (quizlet_convert.py line 40)
and `raw.rstrip("\n\r")` (script.py line 43) — the same character set. -/
def isCRLF (c : Char) : Bool := c = '\r' || c = '\n'

/-- Remove the trailing run of characters satisfying `p` (Python `rstrip`). -/
def rstripWith (p : Char → Bool) (l : List Char) : List Char :=
  (l.reverse.dropWhile p).reverse

/-- Python `text.strip()`: drop leading and trailing whitespace. -/
def pyStrip (l : List Char) : List Char :=
  rstripWith pyIsSpace (l.dropWhile pyIsSpace)

/-- Python `raw.rstrip("\r\n")`. -/
def rstripCRLF (l : List Char) : List Char := rstripWith isCRLF l

/-- Helper for `splitOn`: accumulator holds the current segment reversed. -/
def splitOnAux (d : Char) : List Char → List Char → List (List Char)
  | [], acc => [acc.reverse]
  | c :: cs, acc =>
    if c = d then acc.reverse :: splitOnAux d cs []
    else splitOnAux d cs (c :: acc)

/-- Python `s.split(d)` for a single-character separator `d`
(no maxsplit): `"".split(d) = [""]`, and a separator at either end
produces an empty segment. -/
def splitOn (d : Char) (l : List Char) : List (List Char) := splitOnAux d l []

/-- Python `s.split(d, 1)` restricted to the informative part: `some (before,
after)` split at the first occurrence of `d`, or `none` when `d` does not occur
(in which case Python returns a one-element list). -/
def splitOnce (d : Char) : List Char → Option (List Char × List Char)
  | [] => none
  | c :: rest =>
    if c = d then some ([], rest)
    else
      match splitOnce d rest with
      | some (a, b) => some (c :: a, b)
      | none => none

/-- Python `d.join(parts)` for a single-character separator. -/
def joinWith (d : Char) : List (List Char) → List Char
  | [] => []
  | [x] => x
  | x :: y :: rest => x ++ d :: joinWith d (y :: rest)

/-- Concatenation of a list of strings (used for whole-file contents). -/
def concatAll : List (List Char) → List Char
  | [] => []
  | x :: xs => x ++ concatAll xs

/-- Python `text.replace('"', '""')`: double every double-quote character. -/
def escapeQuotes : List Char → List Char
  | [] => []
  | c :: cs => if c = '"' then '"' :: '"' :: escapeQuotes cs else c :: escapeQuotes cs

/-- The `if len(text) >= 2 and text[0] == text[-1] == '"'` unwrapping step of
`quote_field` (quizlet_convert.py lines 19-20, script.py lines 19-20). -/
def stripOuterQuotes (l : List Char) : List Char :=
  if 2 ≤ l.length ∧ l.head? = some '"' ∧ l.getLast? = some '"' then
    (l.drop 1).dropLast
  else l

/-- `quote_field` from quizlet_convert.py lines 16-22 (identical in script.py
lines 15-23): strip, unwrap one pre-existing outer quote pair, double interior
quotes, wrap in quotes. -/
def quote_field (s : List Char) : List Char :=
  '"' :: escapeQuotes (stripOuterQuotes (pyStrip s)) ++ ['"']

/-- The per-line parsing done inside the read/convert loop of
`convert_file` (quizlet_convert.py lines 39-47) and of script.py's
`convert_folder` (lines 42-53): strip the trailing newline characters, skip
blank lines, split on every tab, skip lines with fewer than two parts,
rejoin stray tabs into the definition. -/
def tabParseLine (raw : List Char) : Option (List Char × List Char) :=
  let r := rstripCRLF raw
  if r = [] then none
  else
    let parts := splitOn '\t' r
    if parts.length < 2 then none
    else some (parts.headD [], joinWith '\t' parts.tail)

/-- The body (without terminator) of one output line of the tab pipeline:
`f"{quote_field(term)},{quote_field(definition)}"` (quizlet_convert.py
line 48, script.py lines 45-47). -/
def tabRowBody (t d : List Char) : List Char :=
  quote_field t ++ ',' :: quote_field d

/-- One full emitted line of the tab pipeline, `"\n"`-terminated. -/
def tabEmitLine (r : List Char × List Char) : List Char :=
  tabRowBody r.1 r.2 ++ ['\n']

/-- Physical-line iteration of a Python text file opened with `newline=""`:
lines are terminated by `\n`, `\r` or `\r\n`; terminators are kept; a final
unterminated chunk is a line of its own. -/
def pysplitlinesAux : List Char → List Char → List (List Char)
  | [], acc => if acc = [] then [] else [acc.reverse]
  | c :: rest, acc =>
    if c = '\n' then (acc.reverse ++ ['\n']) :: pysplitlinesAux rest []
    else if c = '\r' then
      match rest with
      | [] => [acc.reverse ++ ['\r']]
      | d :: rest2 =>
        if d = '\n' then (acc.reverse ++ ['\r', '\n']) :: pysplitlinesAux rest2 []
        else (acc.reverse ++ ['\r']) :: pysplitlinesAux (d :: rest2) []
    else pysplitlinesAux rest (c :: acc)

/-- Physical lines of a file content. -/
def pysplitlinesKeep (l : List Char) : List (List Char) := pysplitlinesAux l []

/-- The records produced by the tab pipeline's read loop from a file content. -/
def tabRecords (orig : List Char) : List (List Char × List Char) :=
  (pysplitlinesKeep orig).filterMap tabParseLine

/-- The complete converted content the tab pipeline writes to the temp file. -/
def tabWrite (recs : List (List Char × List Char)) : List Char :=
  concatAll (recs.map tabEmitLine)

/-- Per-file conversion outcome (spec §3 `ConversionOutcome`). -/
inductive Outcome where
  | Converted : Nat → Outcome
  | Empty : Outcome
  | Failed : Outcome
  deriving DecidableEq

/-- State of the two files an in-place conversion touches: the destination's
content and whether the temporary file still exists afterwards. -/
structure FS where
  dest : List Char
  tmpExists : Bool
  deriving DecidableEq

/-- The write loop over the temp file.  `inject = none`: all records are
written and the `with` block completes.  `inject = some k`: an exception
(I/O or decode error) interrupts processing after `k` records were written
to the temp file; the function reports the partial temp content and failure. -/
def writeLines (emitted : List (List Char)) (inject : Option Nat) :
    List Char × Bool :=
  match inject with
  | none => (concatAll emitted, true)
  | some k => (concatAll (emitted.take k), false)

/-- `convert_file` from quizlet_convert.py lines 24-62, after the extension
check: create a temp file, write every valid record, then — on success —
delete the temp file and keep `path` when zero records were written
(lines 51-54), else atomically replace `path` (line 56); on any exception
delete the temp file and leave `path` untouched (lines 59-62). -/
def quizletConvertFile (orig : List Char) (inject : Option Nat) : FS × Outcome :=
  let w := writeLines ((tabRecords orig).map tabEmitLine) inject
  if w.2 then
    if (tabRecords orig).length = 0 then (⟨orig, false⟩, Outcome.Empty)
    else (⟨w.1, false⟩, Outcome.Converted (tabRecords orig).length)
  else (⟨orig, false⟩, Outcome.Failed)

/-- The per-file body of script.py's `convert_folder` (lines 25-64): identical
read/write loop, but `os.replace(tmp, src)` runs unconditionally on success
(line 59) — there is no zero-record guard; on exception the temp file is
removed and `src` left untouched (lines 61-64). -/
def scriptConvertFile (orig : List Char) (inject : Option Nat) : FS × Outcome :=
  let w := writeLines ((tabRecords orig).map tabEmitLine) inject
  if w.2 then (⟨w.1, false⟩, Outcome.Converted (tabRecords orig).length)
  else (⟨orig, false⟩, Outcome.Failed)

/-- `parse_line` from txt_to_csv.py lines 23-33: strip the whole line, skip if
blank, split at the first `=` only (skip when there is none), strip both
resulting fields. -/
def parse_line (line : List Char) : Option (List Char × List Char) :=
  let s := pyStrip line
  if s = [] then none
  else
    match splitOnce '=' s with
    | none => none
    | some (a, b) => some (pyStrip a, pyStrip b)

/-- One field as emitted by Python's `csv.writer` with `quoting=csv.QUOTE_ALL`
(txt_to_csv.py line 61): always wrapped in double quotes, interior double
quotes doubled. -/
def csvQuoteAll (s : List Char) : List Char :=
  '"' :: escapeQuotes s ++ ['"']

/-- The body (without terminator) of one row written by `writer.writerow([term,
definition])` in `write_csv` (txt_to_csv.py line 64). -/
def csvRowBody (t d : List Char) : List Char :=
  csvQuoteAll t ++ ',' :: csvQuoteAll d

/-- One full row of `csv.writer` output: `csv.writer`'s default line
terminator is `"\r\n"`, written untranslated because the output file is
opened with `newline=""` (txt_to_csv.py line 60). -/
def csvRow (r : List Char × List Char) : List Char :=
  csvRowBody r.1 r.2 ++ ['\r', '\n']

/-- The content `write_csv` (txt_to_csv.py lines 58-64) writes for a list of
rows: every row quoted with `QUOTE_ALL`, no header. -/
def write_csv (rows : List (List Char × List Char)) : List Char :=
  concatAll (rows.map csvRow)

/-- The parse loop of `read_text` (txt_to_csv.py lines 49-55): apply
`parse_line` to every line, silently dropping blank/`=`-less lines. -/
def cardsOf (lines : List (List Char)) : List (List Char × List Char) :=
  lines.filterMap parse_line

/-- The encoding fallback chain of `read_text` (txt_to_csv.py line 36):
`["utf-8-sig", "utf-8", "cp949"]`. -/
inductive Encoding where
  | utf8sig : Encoding
  | utf8 : Encoding
  | cp949 : Encoding
  deriving DecidableEq

/-- The ordered encoding list tried by `read_text`. -/
def encodings : List Encoding := [Encoding.utf8sig, Encoding.utf8, Encoding.cp949]

/-- An abstract file on disk, seen through decoding attempts: for each
encoding, either the full decoded line list (`readlines()` succeeded under
`errors="strict"`) or `none` (opening/decoding raised). -/
def Dec : Type := Encoding → Option (List (List Char))

/-- The `for enc in encodings: try ... break / else: raise` loop of
`read_text` (txt_to_csv.py lines 36-48): first encoding that decodes the
entire file wins; if all fail, a `RuntimeError` is raised. -/
def firstSuccess (dec : Dec) : List Encoding → Except Unit (List (List Char))
  | [] => Except.error ()
  | e :: rest =>
    match dec e with
    | some x => Except.ok x
    | none => firstSuccess dec rest

/-- `read_text` of txt_to_csv.py, reduced to its encoding-selection behaviour
(the parsing of the decoded lines is `cardsOf`). -/
def read_text (dec : Dec) : Except Unit (List (List Char)) :=
  firstSuccess dec encodings

/-- The per-file loop of txt_to_csv.py's `convert_folder` in one-CSV-per-file
mode (lines 84-91): `rows = read_text(p)` followed by `write_csv`.  The
`RuntimeError` raised by `read_text` is not caught anywhere in the function,
so it aborts the loop.  Result: the output contents written so far, in order,
and whether the batch was aborted by an uncaught exception. -/
def convertFolderEq : List Dec → List (List Char) × Bool
  | [] => ([], false)
  | f :: rest =>
    match read_text f with
    | Except.error _ => ([], true)
    | Except.ok lines =>
      (write_csv (cardsOf lines) :: (convertFolderEq rest).1, (convertFolderEq rest).2)

/-- The output `convert_folder` would write for one readable file. -/
def outputOfFile (g : Dec) : List Char :=
  match read_text g with
  | Except.ok lines => write_csv (cardsOf lines)
  | Except.error _ => []

/-- A file every encoding fails to decode (e.g. invalid under UTF-8 and
cp949). -/
def decBad : Dec := fun _ => none

/-- A valid single-line file `a=b` that decodes under the first encoding. -/
def decGood : Dec := fun _ => some [("a=b").toList]

/-- A file that decodes only under plain UTF-8, not under utf-8-sig. -/
def decUtf8Only : Dec := fun e =>
  match e with
  | Encoding.utf8 => some [("x=y").toList]
  | _ => none

/-- RFC-4180 quoted-field parser, body part: consumes characters after the
opening quote; a doubled quote is a literal quote, a single quote closes the
field.  Returns the field value and the unconsumed rest.  This is the
spec-side "standard CSV reader" the quoting claims are checked against. -/
def parseFieldBody : List Char → Option (List Char × List Char)
  | [] => none
  | c :: rest =>
    if c = '"' then
      match rest with
      | [] => some ([], [])
      | d :: rest2 =>
        if d = '"' then
          match parseFieldBody rest2 with
          | some (v, r) => some ('"' :: v, r)
          | none => none
        else some ([], d :: rest2)
    else
      match parseFieldBody rest with
      | some (v, r) => some (c :: v, r)
      | none => none

/-- RFC-4180 quoted-field parser: expects an opening quote. -/
def parseQuotedField (l : List Char) : Option (List Char × List Char) :=
  match l with
  | c :: rest => if c = '"' then parseFieldBody rest else none
  | [] => none

/-- RFC-4180 record parser for one line body: exactly two quoted fields
joined by a single comma, nothing else. -/
def parseRecordLine (l : List Char) : Option (List Char × List Char) :=
  match parseQuotedField l with
  | none => none
  | some (f1, r1) =>
    match r1 with
    | c :: r2 =>
      if c = ',' then
        match parseQuotedField r2 with
        | some (f2, r3) => if r3 = [] then some (f1, f2) else none
        | none => none
      else none
    | [] => none

/-- Number of occurrences of a character in a string. -/
def countChar (c : Char) : List Char → Nat
  | [] => 0
  | d :: l => (if d = c then 1 else 0) + countChar c l

/-- Shape of a physical line produced by `pysplitlinesKeep`: a body free of
newline characters followed by one of the possible terminators. -/
def LineShape (l : List Char) : Prop :=
  ∃ b e, l = b ++ e ∧ (∀ c ∈ b, isCRLF c = false) ∧
    (e = [] ∨ e = ['\n'] ∨ e = ['\r'] ∨ e = ['\r', '\n'])

/-! ### Basic lemmas about `dropWhile`, `rstripWith` and `pyStrip` -/

lemma mem_dropWhile {p : Char → Bool} {c : Char} :
    ∀ {l : List Char}, c ∈ l.dropWhile p → c ∈ l := by
  intro l
  induction l with
  | nil => intro h; simp at h
  | cons a l ih =>
    intro h
    by_cases ha : p a
    · simp [List.dropWhile, ha] at h
      exact List.mem_cons_of_mem a (ih h)
    · simpa [List.dropWhile, ha] using h

lemma dropWhile_eq_self_of {p : Char → Bool} :
    ∀ {l : List Char}, (∀ c ∈ l, p c = false) → l.dropWhile p = l := by
  intro l h
  cases l with
  | nil => rfl
  | cons a l => simp [List.dropWhile, h a (List.mem_cons_self a l)]

lemma dropWhile_append_single {p : Char → Bool} {c : Char} (hc : p c = false) :
    ∀ l : List Char, (l ++ [c]).dropWhile p = l.dropWhile p ++ [c] := by
  intro l
  induction l with
  | nil => simp [List.dropWhile, hc]
  | cons a l ih =>
    by_cases ha : p a
    · simp [List.dropWhile, ha, ih]
    · simp [List.dropWhile, ha]

lemma dropWhileIdem {p : Char → Bool} :
    ∀ l : List Char, (l.dropWhile p).dropWhile p = l.dropWhile p := by
  intro l
  induction l with
  | nil => rfl
  | cons a l ih =>
    by_cases ha : p a
    · simp [List.dropWhile, ha, ih]
    · simp [List.dropWhile, ha]

lemma mem_rstripWith {p : Char → Bool} {c : Char} {l : List Char}
    (h : c ∈ rstripWith p l) : c ∈ l := by
  unfold rstripWith at h
  rw [List.mem_reverse] at h
  have := mem_dropWhile h
  rwa [List.mem_reverse] at this

lemma rstripWith_eq_self_of {p : Char → Bool} {l : List Char}
    (h : ∀ c ∈ l, p c = false) : rstripWith p l = l := by
  unfold rstripWith
  rw [dropWhile_eq_self_of (by intro c hc; exact h c (List.mem_reverse.mp hc))]
  exact List.reverse_reverse l

lemma rstripWith_append_pos {p : Char → Bool} {c : Char} (hc : p c = true)
    (l : List Char) : rstripWith p (l ++ [c]) = rstripWith p l := by
  unfold rstripWith
  simp [List.dropWhile, hc]

lemma rstripWith_cons_neg {p : Char → Bool} {c : Char} (hc : p c = false)
    (l : List Char) : rstripWith p (c :: l) = c :: rstripWith p l := by
  unfold rstripWith
  rw [List.reverse_cons, dropWhile_append_single hc, List.reverse_append]
  simp

lemma rstripWith_eq_nil_iff {p : Char → Bool} {l : List Char} :
    rstripWith p l = [] ↔ ∀ c ∈ l, p c := by
  unfold rstripWith
  rw [List.reverse_eq_nil_iff, List.dropWhile_eq_nil_iff]
  constructor
  · intro h c hc; exact h c (List.mem_reverse.mpr hc)
  · intro h c hc; exact h c (List.mem_reverse.mp hc)

lemma dropWhile_append_of_ne_nil {p : Char → Bool} :
    ∀ {l : List Char}, l.dropWhile p ≠ [] →
      ∀ m : List Char, (l ++ m).dropWhile p = l.dropWhile p ++ m := by
  intro l
  induction l with
  | nil => intro h; exact absurd rfl h
  | cons a as ih =>
    intro h m
    by_cases hpa : p a
    · rw [List.cons_append, List.dropWhile_cons_of_pos hpa,
        List.dropWhile_cons_of_pos hpa]
      rw [List.dropWhile_cons_of_pos hpa] at h
      exact ih h m
    · rw [List.cons_append, List.dropWhile_cons_of_neg hpa,
        List.dropWhile_cons_of_neg hpa, List.cons_append]

lemma rstripWith_cons_pos {p : Char → Bool} {c : Char} (hc : p c = true)
    (l : List Char) :
    rstripWith p (c :: l) =
      if rstripWith p l = [] then [] else c :: rstripWith p l := by
  by_cases h : rstripWith p l = []
  · rw [if_pos h]
    rw [rstripWith_eq_nil_iff]
    intro d hd
    rcases List.mem_cons.mp hd with rfl | hd
    · exact hc
    · exact rstripWith_eq_nil_iff.mp h d hd
  · rw [if_neg h]
    unfold rstripWith at h ⊢
    rw [List.reverse_cons]
    have h2 : List.dropWhile p l.reverse ≠ [] := by
      intro hnil; exact h (by rw [hnil]; rfl)
    rw [dropWhile_append_of_ne_nil h2, List.reverse_append]
    simp

lemma dropWhile_rstripWith_comm {p : Char → Bool} :
    ∀ l : List Char, (rstripWith p l).dropWhile p = rstripWith p (l.dropWhile p) := by
  intro l
  induction l with
  | nil => rfl
  | cons c l ih =>
    by_cases hc : p c
    · rw [rstripWith_cons_pos hc]
      by_cases h : rstripWith p l = []
      · rw [if_pos h]
        have hall : ∀ d ∈ l, p d := rstripWith_eq_nil_iff.mp h
        have : l.dropWhile p = [] := List.dropWhile_eq_nil_iff.mpr hall
        rw [List.dropWhile_cons_of_pos hc, this]
        rfl
      · rw [if_neg h, List.dropWhile_cons_of_pos hc, List.dropWhile_cons_of_pos hc]
        exact ih
    · rw [rstripWith_cons_neg (by simpa using hc), List.dropWhile_cons_of_neg hc,
        List.dropWhile_cons_of_neg hc, rstripWith_cons_neg (by simpa using hc)]

lemma rstripWith_idem {p : Char → Bool} (l : List Char) :
    rstripWith p (rstripWith p l) = rstripWith p l := by
  unfold rstripWith
  rw [List.reverse_reverse, dropWhileIdem]

lemma pyStrip_rstripWith (l : List Char) :
    pyStrip (rstripWith pyIsSpace l) = pyStrip l := by
  unfold pyStrip
  rw [dropWhile_rstripWith_comm, rstripWith_idem]

lemma mem_pyStrip {c : Char} {l : List Char} (h : c ∈ pyStrip l) : c ∈ l :=
  mem_dropWhile (mem_rstripWith h)

/-! ### Lemmas about `splitOn`, `splitOnce`, `joinWith` -/

lemma splitOnAux_ne_nil (d : Char) :
    ∀ (l acc : List Char), splitOnAux d l acc ≠ [] := by
  intro l
  induction l with
  | nil => intro acc; simp [splitOnAux]
  | cons c cs ih =>
    intro acc
    by_cases hc : c = d
    · simp [splitOnAux, hc]
    · simp only [splitOnAux, if_neg hc]
      exact ih (c :: acc)

lemma splitOnAux_length (d : Char) :
    ∀ (l acc : List Char), (splitOnAux d l acc).length = countChar d l + 1 := by
  intro l
  induction l with
  | nil => intro acc; simp [splitOnAux, countChar]
  | cons c cs ih =>
    intro acc
    by_cases hc : c = d
    · simp only [splitOnAux, if_pos hc, List.length_cons, countChar, if_pos hc, ih]
      omega
    · simp only [splitOnAux, if_neg hc, countChar, if_neg hc, ih]
      omega

lemma splitOn_length (d : Char) (l : List Char) :
    (splitOn d l).length = countChar d l + 1 :=
  splitOnAux_length d l []

lemma countChar_eq_zero_of_not_mem {d : Char} :
    ∀ {l : List Char}, d ∉ l → countChar d l = 0 := by
  intro l
  induction l with
  | nil => intro _; rfl
  | cons c cs ih =>
    intro h
    have hc : c ≠ d := by
      intro hcd; exact h (by rw [hcd]; exact List.mem_cons_self d cs)
    have hcs : d ∉ cs := fun hm => h (List.mem_cons_of_mem c hm)
    simp [countChar, hc, ih hcs]

lemma splitOnAux_not_mem (d : Char) :
    ∀ (l acc : List Char), d ∉ acc →
      ∀ p ∈ splitOnAux d l acc, d ∉ p := by
  intro l
  induction l with
  | nil =>
    intro acc hacc p hp
    simp only [splitOnAux, List.mem_singleton] at hp
    subst hp
    intro hd
    exact hacc (List.mem_reverse.mp hd)
  | cons c cs ih =>
    intro acc hacc p hp
    by_cases hc : c = d
    · simp only [splitOnAux, if_pos hc, List.mem_cons] at hp
      rcases hp with rfl | hp
      · intro hd; exact hacc (List.mem_reverse.mp hd)
      · exact ih [] (List.not_mem_nil d) p hp
    · simp only [splitOnAux, if_neg hc] at hp
      refine ih (c :: acc) ?_ p hp
      intro hd
      rcases List.mem_cons.mp hd with hdc | hd
      · exact hc hdc.symm
      · exact hacc hd

lemma splitOnAux_mem_subset (d : Char) :
    ∀ (l acc : List Char), ∀ p ∈ splitOnAux d l acc, ∀ c ∈ p, c ∈ l ∨ c ∈ acc := by
  intro l
  induction l with
  | nil =>
    intro acc p hp c hc
    simp only [splitOnAux, List.mem_singleton] at hp
    subst hp
    exact Or.inr (List.mem_reverse.mp hc)
  | cons a cs ih =>
    intro acc p hp c hc
    by_cases ha : a = d
    · simp only [splitOnAux, if_pos ha, List.mem_cons] at hp
      rcases hp with rfl | hp
      · exact Or.inr (List.mem_reverse.mp hc)
      · rcases ih [] p hp c hc with h | h
        · exact Or.inl (List.mem_cons_of_mem a h)
        · exact absurd h (List.not_mem_nil c)
    · simp only [splitOnAux, if_neg ha] at hp
      rcases ih (a :: acc) p hp c hc with h | h
      · exact Or.inl (List.mem_cons_of_mem a h)
      · rcases List.mem_cons.mp h with rfl | h
        · exact Or.inl (List.mem_cons_self c cs)
        · exact Or.inr h

lemma joinWith_cons (d : Char) (x : List Char) {rest : List (List Char)}
    (h : rest ≠ []) : joinWith d (x :: rest) = x ++ d :: joinWith d rest := by
  cases rest with
  | nil => exact absurd rfl h
  | cons y ys => rfl

lemma join_splitOnAux (d : Char) :
    ∀ (l acc : List Char), joinWith d (splitOnAux d l acc) = acc.reverse ++ l := by
  intro l
  induction l with
  | nil => intro acc; simp [splitOnAux, joinWith]
  | cons c cs ih =>
    intro acc
    by_cases hc : c = d
    · rw [splitOnAux, if_pos hc,
        joinWith_cons d acc.reverse (splitOnAux_ne_nil d cs []), ih []]
      simp [hc]
    · rw [splitOnAux, if_neg hc, ih (c :: acc)]
      simp

lemma join_splitOn (d : Char) (l : List Char) :
    joinWith d (splitOn d l) = l :=
  join_splitOnAux d l []

lemma splitOnAux_not_mem_eq (d : Char) :
    ∀ (l acc : List Char), d ∉ l → splitOnAux d l acc = [acc.reverse ++ l] := by
  intro l
  induction l with
  | nil => intro acc _; simp [splitOnAux]
  | cons c cs ih =>
    intro acc h
    have hc : c ≠ d := by
      intro hcd; exact h (by rw [hcd]; exact List.mem_cons_self d cs)
    have hcs : d ∉ cs := fun hm => h (List.mem_cons_of_mem c hm)
    rw [splitOnAux, if_neg hc, ih (c :: acc) hcs]
    simp

lemma splitOn_not_mem_eq {d : Char} {l : List Char} (h : d ∉ l) :
    splitOn d l = [l] := by
  have := splitOnAux_not_mem_eq d l [] h
  simpa [splitOn] using this

lemma splitOnce_first {d : Char} :
    ∀ {pre : List Char}, d ∉ pre →
      ∀ post : List Char, splitOnce d (pre ++ d :: post) = some (pre, post) := by
  intro pre
  induction pre with
  | nil => intro _ post; simp [splitOnce]
  | cons c cs ih =>
    intro h post
    have hc : c ≠ d := by
      intro hcd; exact h (by rw [hcd]; exact List.mem_cons_self d cs)
    have hcs : d ∉ cs := fun hm => h (List.mem_cons_of_mem c hm)
    rw [List.cons_append, splitOnce, if_neg hc, ih hcs post]

lemma splitOnce_not_mem {d : Char} :
    ∀ {l : List Char}, d ∉ l → splitOnce d l = none := by
  intro l
  induction l with
  | nil => intro _; rfl
  | cons c cs ih =>
    intro h
    have hc : c ≠ d := by
      intro hcd; exact h (by rw [hcd]; exact List.mem_cons_self d cs)
    have hcs : d ∉ cs := fun hm => h (List.mem_cons_of_mem c hm)
    rw [splitOnce, if_neg hc, ih hcs]

/-! ### Lemmas about `escapeQuotes`, `quote_field` and the RFC-4180 parser -/

lemma mem_escapeQuotes {c : Char} :
    ∀ {s : List Char}, c ∈ escapeQuotes s → c = '"' ∨ c ∈ s := by
  intro s
  induction s with
  | nil => intro h; simp [escapeQuotes] at h
  | cons a as ih =>
    intro h
    by_cases ha : a = '"'
    · rw [escapeQuotes, if_pos ha] at h
      rcases List.mem_cons.mp h with rfl | h
      · exact Or.inl rfl
      · rcases List.mem_cons.mp h with rfl | h
        · exact Or.inl rfl
        · rcases ih h with h | h
          · exact Or.inl h
          · exact Or.inr (List.mem_cons_of_mem a h)
    · rw [escapeQuotes, if_neg ha] at h
      rcases List.mem_cons.mp h with rfl | h
      · exact Or.inr (List.mem_cons_self c as)
      · rcases ih h with h | h
        · exact Or.inl h
        · exact Or.inr (List.mem_cons_of_mem a h)

lemma mem_dropLast {c : Char} :
    ∀ {l : List Char}, c ∈ l.dropLast → c ∈ l := by
  intro l
  induction l with
  | nil => intro h; simp at h
  | cons a as ih =>
    intro h
    cases as with
    | nil => simp at h
    | cons b bs =>
      rw [List.dropLast_cons₂] at h
      rcases List.mem_cons.mp h with rfl | h
      · exact List.mem_cons_self c (b :: bs)
      · exact List.mem_cons_of_mem a (ih h)

lemma mem_stripOuterQuotes {c : Char} {l : List Char}
    (h : c ∈ stripOuterQuotes l) : c ∈ l := by
  unfold stripOuterQuotes at h
  by_cases hcond : 2 ≤ l.length ∧ l.head? = some '"' ∧ l.getLast? = some '"'
  · rw [if_pos hcond] at h
    have h1 : c ∈ l.drop 1 := mem_dropLast h
    cases l with
    | nil => simp at h1
    | cons a as => exact List.mem_cons_of_mem a h1
  · rw [if_neg hcond] at h
    exact h

lemma mem_quote_field {c : Char} {s : List Char}
    (h : c ∈ quote_field s) : c = '"' ∨ c ∈ s := by
  unfold quote_field at h
  rcases List.mem_cons.mp h with rfl | h
  · exact Or.inl rfl
  · rcases List.mem_append.mp h with h | h
    · rcases mem_escapeQuotes h with h | h
      · exact Or.inl h
      · exact Or.inr (mem_pyStrip (mem_stripOuterQuotes h))
    · rcases List.mem_singleton.mp h with rfl
      exact Or.inl rfl

lemma parseFieldBody_escape :
    ∀ (x r : List Char), r.head? ≠ some '"' →
      parseFieldBody (escapeQuotes x ++ '"' :: r) = some (x, r) := by
  intro x
  induction x with
  | nil =>
    intro r hr
    cases r with
    | nil => simp [escapeQuotes, parseFieldBody]
    | cons d r2 =>
      have hd : d ≠ '"' := by
        intro hdq; exact hr (by rw [hdq]; rfl)
      simp [escapeQuotes, parseFieldBody, hd]
  | cons c x' ih =>
    intro r hr
    by_cases hc : c = '"'
    · subst hc
      have h1 : escapeQuotes ('"' :: x') ++ '"' :: r =
          '"' :: '"' :: (escapeQuotes x' ++ '"' :: r) := by
        simp [escapeQuotes]
      rw [h1, parseFieldBody.eq_def]
      simp [ih r hr]
    · have h1 : escapeQuotes (c :: x') ++ '"' :: r =
          c :: (escapeQuotes x' ++ '"' :: r) := by
        simp [escapeQuotes, hc]
      rw [h1, parseFieldBody.eq_def]
      simp [hc, ih r hr]

lemma parseQuotedField_quoted (core r : List Char) (hr : r.head? ≠ some '"') :
    parseQuotedField (('"' :: escapeQuotes core ++ ['"']) ++ r) = some (core, r) := by
  have h1 : ('"' :: escapeQuotes core ++ ['"']) ++ r =
      '"' :: (escapeQuotes core ++ '"' :: r) := by
    simp
  rw [h1, parseQuotedField.eq_def]
  simp [parseFieldBody_escape core r hr]

lemma parseRecordLine_two_fields (a b : List Char) :
    parseRecordLine
        (('"' :: escapeQuotes a ++ ['"']) ++ ',' :: ('"' :: escapeQuotes b ++ ['"'])) =
      some (a, b) := by
  rw [parseRecordLine,
    parseQuotedField_quoted a (',' :: ('"' :: escapeQuotes b ++ ['"'])) (by simp)]
  have h2 : parseQuotedField ('"' :: (escapeQuotes b ++ ['"'])) = some (b, []) := by
    have h3 := parseQuotedField_quoted b [] (by simp)
    simpa using h3
  simp [h2]

/-! ### Step equations for `pysplitlinesAux` -/

lemma pysplitlinesAux_nil (acc : List Char) :
    pysplitlinesAux [] acc = if acc = [] then [] else [acc.reverse] := by
  rw [pysplitlinesAux.eq_def]

lemma pysplitlinesAux_newline (rest acc : List Char) :
    pysplitlinesAux ('\n' :: rest) acc =
      (acc.reverse ++ ['\n']) :: pysplitlinesAux rest [] := by
  rw [pysplitlinesAux.eq_def]
  simp

lemma pysplitlinesAux_cr_last (acc : List Char) :
    pysplitlinesAux ['\r'] acc = [acc.reverse ++ ['\r']] := by
  rw [pysplitlinesAux.eq_def]
  simp

lemma pysplitlinesAux_crlf (rest2 acc : List Char) :
    pysplitlinesAux ('\r' :: '\n' :: rest2) acc =
      (acc.reverse ++ ['\r', '\n']) :: pysplitlinesAux rest2 [] := by
  rw [pysplitlinesAux.eq_def]
  simp

lemma pysplitlinesAux_cr_other {d : Char} (hd : d ≠ '\n') (rest2 acc : List Char) :
    pysplitlinesAux ('\r' :: d :: rest2) acc =
      (acc.reverse ++ ['\r']) :: pysplitlinesAux (d :: rest2) [] := by
  rw [pysplitlinesAux.eq_def]
  simp [hd]

lemma pysplitlinesAux_other {c : Char} (h1 : c ≠ '\n') (h2 : c ≠ '\r')
    (rest acc : List Char) :
    pysplitlinesAux (c :: rest) acc = pysplitlinesAux rest (c :: acc) := by
  rw [pysplitlinesAux.eq_def]
  simp [h1, h2]

/-! ### Structure of the lines produced by `pysplitlinesKeep` -/

lemma pysplitlinesAux_shape :
    ∀ (s acc : List Char), (∀ c ∈ acc, isCRLF c = false) →
      ∀ l ∈ pysplitlinesAux s acc, LineShape l := by
  intro s acc
  induction s, acc using pysplitlinesAux.induct with
  | case1 =>
    intro _ l hl
    rw [pysplitlinesAux_nil, if_pos rfl] at hl
    exact absurd hl (List.not_mem_nil l)
  | case2 acc hacc =>
    intro h l hl
    rw [pysplitlinesAux_nil, if_neg hacc] at hl
    rcases List.mem_singleton.mp hl with rfl
    exact ⟨acc.reverse, [], by simp, fun c hc => h c (List.mem_reverse.mp hc),
      Or.inl rfl⟩
  | case3 rest acc ih =>
    intro h l hl
    rw [pysplitlinesAux_newline] at hl
    rcases List.mem_cons.mp hl with rfl | hl
    · exact ⟨acc.reverse, ['\n'], rfl, fun c hc => h c (List.mem_reverse.mp hc),
        Or.inr (Or.inl rfl)⟩
    · exact ih (by intro c hc; simp at hc) l hl
  | case4 acc _ =>
    intro h l hl
    rw [pysplitlinesAux_cr_last] at hl
    rcases List.mem_singleton.mp hl with rfl
    exact ⟨acc.reverse, ['\r'], rfl, fun c hc => h c (List.mem_reverse.mp hc),
      Or.inr (Or.inr (Or.inl rfl))⟩
  | case5 acc rest2 _ ih =>
    intro h l hl
    rw [pysplitlinesAux_crlf] at hl
    rcases List.mem_cons.mp hl with rfl | hl
    · exact ⟨acc.reverse, ['\r', '\n'], rfl,
        fun c hc => h c (List.mem_reverse.mp hc), Or.inr (Or.inr (Or.inr rfl))⟩
    · exact ih (by intro c hc; simp at hc) l hl
  | case6 acc d rest2 hd _ ih =>
    intro h l hl
    rw [pysplitlinesAux_cr_other hd] at hl
    rcases List.mem_cons.mp hl with rfl | hl
    · exact ⟨acc.reverse, ['\r'], rfl, fun c hc => h c (List.mem_reverse.mp hc),
        Or.inr (Or.inr (Or.inl rfl))⟩
    · exact ih (by intro c hc; simp at hc) l hl
  | case7 c rest acc hc1 hc2 ih =>
    intro h l hl
    rw [pysplitlinesAux_other hc1 hc2] at hl
    refine ih ?_ l hl
    intro x hx
    rcases List.mem_cons.mp hx with rfl | hx
    · simp [isCRLF, hc1, hc2]
    · exact h x hx

lemma pysplitlines_shape {orig : List Char} :
    ∀ l ∈ pysplitlinesKeep orig, LineShape l :=
  pysplitlinesAux_shape orig [] (by intro c hc; simp at hc)

lemma rstripCRLF_of_lineShape {l : List Char} (h : LineShape l) :
    ∀ c ∈ rstripCRLF l, isCRLF c = false := by
  rcases h with ⟨b, e, rfl, hb, he⟩
  have key : rstripCRLF (b ++ e) = b := by
    rcases he with rfl | rfl | rfl | rfl
    · rw [List.append_nil]
      exact rstripWith_eq_self_of hb
    · show rstripWith isCRLF (b ++ ['\n']) = b
      rw [rstripWith_append_pos (by decide) b]
      exact rstripWith_eq_self_of hb
    · show rstripWith isCRLF (b ++ ['\r']) = b
      rw [rstripWith_append_pos (by decide) b]
      exact rstripWith_eq_self_of hb
    · show rstripWith isCRLF (b ++ ['\r', '\n']) = b
      have h1 : b ++ ['\r', '\n'] = (b ++ ['\r']) ++ ['\n'] := by simp
      rw [h1, rstripWith_append_pos (by decide) (b ++ ['\r']),
        rstripWith_append_pos (by decide) b]
      exact rstripWith_eq_self_of hb
  rw [key]
  exact hb

lemma pysplitlinesAux_body_append (b : List Char)
    (hb : ∀ c ∈ b, isCRLF c = false) :
    ∀ (rest acc : List Char),
      pysplitlinesAux (b ++ '\n' :: rest) acc =
        ((acc.reverse ++ b) ++ ['\n']) :: pysplitlinesAux rest [] := by
  induction b with
  | nil =>
    intro rest acc
    rw [List.nil_append, pysplitlinesAux_newline]
    simp
  | cons c b' ih =>
    intro rest acc
    have hc : isCRLF c = false := hb c (List.mem_cons_self c b')
    have hc1 : c ≠ '\n' := by
      intro h; rw [h] at hc; simp [isCRLF] at hc
    have hc2 : c ≠ '\r' := by
      intro h; rw [h] at hc; simp [isCRLF] at hc
    have hb' : ∀ x ∈ b', isCRLF x = false :=
      fun x hx => hb x (List.mem_cons_of_mem c hx)
    rw [List.cons_append, pysplitlinesAux_other hc1 hc2, ih hb' rest (c :: acc)]
    simp

lemma pysplitlines_concat (bodies : List (List Char))
    (h : ∀ b ∈ bodies, ∀ c ∈ b, isCRLF c = false) :
    pysplitlinesKeep (concatAll (bodies.map (fun b => b ++ ['\n']))) =
      bodies.map (fun b => b ++ ['\n']) := by
  induction bodies with
  | nil => rfl
  | cons b bs ih =>
    have hb : ∀ c ∈ b, isCRLF c = false := h b (List.mem_cons_self b bs)
    have hbs : ∀ x ∈ bs, ∀ c ∈ x, isCRLF c = false :=
      fun x hx => h x (List.mem_cons_of_mem b hx)
    have h1 : concatAll ((b :: bs).map (fun x => x ++ ['\n'])) =
        b ++ '\n' :: concatAll (bs.map (fun x => x ++ ['\n'])) := by
      simp [concatAll]
    rw [h1]
    show pysplitlinesAux (b ++ '\n' :: concatAll (bs.map (fun x => x ++ ['\n']))) []
      = (b :: bs).map (fun x => x ++ ['\n'])
    rw [pysplitlinesAux_body_append b hb _ []]
    have ih' := ih hbs
    show ([].reverse ++ b ++ ['\n']) :: pysplitlinesKeep
        (concatAll (bs.map (fun x => x ++ ['\n'])))
      = (b :: bs).map (fun x => x ++ ['\n'])
    rw [ih']
    simp

/-! ### Lemmas about `tabParseLine` and `tabRecords` -/

lemma splitOn_ne_nil (d : Char) (l : List Char) : splitOn d l ≠ [] :=
  splitOnAux_ne_nil d l []

lemma splitOn_mem_subset {d : Char} {l : List Char} :
    ∀ p ∈ splitOn d l, ∀ c ∈ p, c ∈ l := by
  intro p hp c hc
  rcases splitOnAux_mem_subset d l [] p hp c hc with h | h
  · exact h
  · simp at h

lemma splitOn_parts_no_d {d : Char} {l : List Char} :
    ∀ p ∈ splitOn d l, d ∉ p :=
  fun p hp => splitOnAux_not_mem d l [] (List.not_mem_nil d) p hp

lemma mem_joinWith {d c : Char} :
    ∀ {ps : List (List Char)}, c ∈ joinWith d ps → c = d ∨ ∃ p ∈ ps, c ∈ p := by
  intro ps
  induction ps with
  | nil => intro h; simp [joinWith] at h
  | cons x rest ih =>
    intro h
    cases rest with
    | nil =>
      exact Or.inr ⟨x, List.mem_singleton.mpr rfl, h⟩
    | cons y ys =>
      rw [joinWith] at h
      rcases List.mem_append.mp h with hx | h2
      · exact Or.inr ⟨x, List.mem_cons_self x (y :: ys), hx⟩
      · rcases List.mem_cons.mp h2 with rfl | h3
        · exact Or.inl rfl
        · rcases ih h3 with h4 | ⟨p, hp, hcp⟩
          · exact Or.inl h4
          · exact Or.inr ⟨p, List.mem_cons_of_mem x hp, hcp⟩

lemma tabParseLine_eq_some {l t d : List Char} (h : tabParseLine l = some (t, d)) :
    rstripCRLF l ≠ [] ∧ 2 ≤ (splitOn '\t' (rstripCRLF l)).length ∧
    t = (splitOn '\t' (rstripCRLF l)).headD [] ∧
    d = joinWith '\t' (splitOn '\t' (rstripCRLF l)).tail := by
  simp only [tabParseLine] at h
  by_cases h1 : rstripCRLF l = []
  · rw [if_pos h1] at h; simp at h
  · rw [if_neg h1] at h
    by_cases h2 : (splitOn '\t' (rstripCRLF l)).length < 2
    · rw [if_pos h2] at h; simp at h
    · rw [if_neg h2] at h
      simp only [Option.some.injEq, Prod.mk.injEq] at h
      exact ⟨h1, by omega, h.1.symm, h.2.symm⟩

lemma tabParseLine_no_tab_none {body : List Char} (hne : body ≠ [])
    (hnotab : ('\t') ∉ body) (hcrlf : ∀ c ∈ body, isCRLF c = false) :
    tabParseLine (body ++ ['\n']) = none := by
  have hr : rstripCRLF (body ++ ['\n']) = body := by
    show rstripWith isCRLF (body ++ ['\n']) = body
    rw [rstripWith_append_pos (by decide) body]
    exact rstripWith_eq_self_of hcrlf
  simp only [tabParseLine, hr]
  rw [if_neg hne, splitOn_not_mem_eq hnotab]
  simp

lemma tabRecords_mem {orig : List Char} {t d : List Char}
    (h : (t, d) ∈ tabRecords orig) :
    ∃ l ∈ pysplitlinesKeep orig, tabParseLine l = some (t, d) := by
  unfold tabRecords at h
  exact List.mem_filterMap.mp h

lemma tabRecords_no_crlf {orig : List Char} {t d : List Char}
    (h : (t, d) ∈ tabRecords orig) :
    (∀ c ∈ t, isCRLF c = false) ∧ (∀ c ∈ d, isCRLF c = false) := by
  obtain ⟨l, hl, hp⟩ := tabRecords_mem h
  have hr : ∀ c ∈ rstripCRLF l, isCRLF c = false :=
    rstripCRLF_of_lineShape (pysplitlines_shape l hl)
  obtain ⟨h1, h2, ht, hd⟩ := tabParseLine_eq_some hp
  constructor
  · intro c hc
    rw [ht] at hc
    rcases hp2 : splitOn '\t' (rstripCRLF l) with _ | ⟨p0, ps⟩
    · exact absurd hp2 (splitOn_ne_nil '\t' (rstripCRLF l))
    · rw [hp2, List.headD_cons] at hc
      have hp0 : p0 ∈ splitOn '\t' (rstripCRLF l) := by
        rw [hp2]; exact List.mem_cons_self p0 ps
      exact hr c (splitOn_mem_subset p0 hp0 c hc)
  · intro c hc
    rw [hd] at hc
    rcases mem_joinWith hc with rfl | ⟨p, hp, hcp⟩
    · decide
    · have hp' : p ∈ splitOn '\t' (rstripCRLF l) := List.mem_of_mem_tail hp
      exact hr c (splitOn_mem_subset p hp' c hcp)

lemma tabRecords_no_tab {orig : List Char} {t d : List Char}
    (hcount : ∀ l ∈ pysplitlinesKeep orig, countChar '\t' (rstripCRLF l) ≤ 1)
    (h : (t, d) ∈ tabRecords orig) : ('\t') ∉ t ∧ ('\t') ∉ d := by
  obtain ⟨l, hl, hp⟩ := tabRecords_mem h
  obtain ⟨h1, h2, ht, hd⟩ := tabParseLine_eq_some hp
  have hlen : (splitOn '\t' (rstripCRLF l)).length =
      countChar '\t' (rstripCRLF l) + 1 := splitOn_length _ _
  have heq : (splitOn '\t' (rstripCRLF l)).length = 2 := by
    have := hcount l hl; omega
  obtain ⟨a, b, hab⟩ := List.length_eq_two.mp heq
  subst ht; subst hd
  rw [hab]
  constructor
  · show ('\t') ∉ ([a, b].headD [])
    rw [List.headD_cons]
    exact splitOn_parts_no_d a (by rw [hab]; exact List.mem_cons_self a [b])
  · show ('\t') ∉ joinWith '\t' [b]
    show ('\t') ∉ b
    exact splitOn_parts_no_d b (by rw [hab]; simp)

/-! ### Lemmas about the emitted row bodies -/

lemma mem_tabRowBody {c : Char} {t d : List Char} (h : c ∈ tabRowBody t d) :
    c = '"' ∨ c = ',' ∨ c ∈ t ∨ c ∈ d := by
  unfold tabRowBody at h
  rcases List.mem_append.mp h with h | h
  · rcases mem_quote_field h with h | h
    · exact Or.inl h
    · exact Or.inr (Or.inr (Or.inl h))
  · rcases List.mem_cons.mp h with rfl | h
    · exact Or.inr (Or.inl rfl)
    · rcases mem_quote_field h with h | h
      · exact Or.inl h
      · exact Or.inr (Or.inr (Or.inr h))

lemma mem_csvQuoteAll {c : Char} {s : List Char} (h : c ∈ csvQuoteAll s) :
    c = '"' ∨ c ∈ s := by
  unfold csvQuoteAll at h
  rcases List.mem_cons.mp h with rfl | h
  · exact Or.inl rfl
  · rcases List.mem_append.mp h with h | h
    · rcases mem_escapeQuotes h with h | h
      · exact Or.inl h
      · exact Or.inr h
    · rcases List.mem_singleton.mp h with rfl
      exact Or.inl rfl

lemma mem_csvRowBody {c : Char} {t d : List Char} (h : c ∈ csvRowBody t d) :
    c = '"' ∨ c = ',' ∨ c ∈ t ∨ c ∈ d := by
  unfold csvRowBody at h
  rcases List.mem_append.mp h with h | h
  · rcases mem_csvQuoteAll h with h | h
    · exact Or.inl h
    · exact Or.inr (Or.inr (Or.inl h))
  · rcases List.mem_cons.mp h with rfl | h
    · exact Or.inr (Or.inl rfl)
    · rcases mem_csvQuoteAll h with h | h
      · exact Or.inl h
      · exact Or.inr (Or.inr (Or.inr h))

lemma tabRowBody_ne_nil (t d : List Char) : tabRowBody t d ≠ [] := by
  simp [tabRowBody, quote_field]

/-! ### Behaviour of the in-place converters -/

lemma quizletConvertFile_inject {orig : List Char} (k : Nat) :
    quizletConvertFile orig (some k) = (⟨orig, false⟩, Outcome.Failed) := by
  simp [quizletConvertFile, writeLines]

lemma scriptConvertFile_inject {orig : List Char} (k : Nat) :
    scriptConvertFile orig (some k) = (⟨orig, false⟩, Outcome.Failed) := by
  simp [scriptConvertFile, writeLines]

lemma quizletConvertFile_empty {orig : List Char} (h : tabRecords orig = []) :
    quizletConvertFile orig none = (⟨orig, false⟩, Outcome.Empty) := by
  simp [quizletConvertFile, writeLines, h]

lemma quizletConvertFile_conv {orig : List Char} (h : tabRecords orig ≠ []) :
    quizletConvertFile orig none =
      (⟨tabWrite (tabRecords orig), false⟩,
        Outcome.Converted (tabRecords orig).length) := by
  have hlen : ¬(tabRecords orig).length = 0 := by
    simpa [List.length_eq_zero] using h
  simp [quizletConvertFile, writeLines, hlen, tabWrite]

lemma tabRecords_output_nil {orig : List Char}
    (hcount : ∀ l ∈ pysplitlinesKeep orig, countChar '\t' (rstripCRLF l) ≤ 1) :
    tabRecords (tabWrite (tabRecords orig)) = [] := by
  have hmap : (tabRecords orig).map tabEmitLine =
      ((tabRecords orig).map (fun r => tabRowBody r.1 r.2)).map
        (fun b => b ++ ['\n']) := by
    rw [List.map_map]; rfl
  have hbod : ∀ b ∈ (tabRecords orig).map (fun r => tabRowBody r.1 r.2),
      ∀ c ∈ b, isCRLF c = false := by
    intro b hb c hc
    obtain ⟨r, hr, rfl⟩ := List.mem_map.mp hb
    rcases mem_tabRowBody hc with rfl | rfl | h | h
    · decide
    · decide
    · exact (tabRecords_no_crlf (show (r.1, r.2) ∈ tabRecords orig from hr)).1 c h
    · exact (tabRecords_no_crlf (show (r.1, r.2) ∈ tabRecords orig from hr)).2 c h
  show (pysplitlinesKeep (concatAll ((tabRecords orig).map tabEmitLine))).filterMap
      tabParseLine = []
  rw [hmap, pysplitlines_concat _ hbod]
  rw [List.filterMap_eq_nil_iff]
  intro a ha
  obtain ⟨b, hb, rfl⟩ := List.mem_map.mp ha
  obtain ⟨r, hr, rfl⟩ := List.mem_map.mp hb
  refine tabParseLine_no_tab_none (tabRowBody_ne_nil _ _) ?_ ?_
  · intro hc
    rcases mem_tabRowBody hc with h | h | h | h
    · exact absurd h (by decide)
    · exact absurd h (by decide)
    · exact (tabRecords_no_tab hcount
        (show (r.1, r.2) ∈ tabRecords orig from hr)).1 h
    · exact (tabRecords_no_tab hcount
        (show (r.1, r.2) ∈ tabRecords orig from hr)).2 h
  · exact hbod _ (List.mem_map.mpr ⟨r, hr, rfl⟩)

/-! ### Lemmas about `pyStrip` and `parse_line` -/

lemma pyStrip_cons_not_space {c : Char} (hc : pyIsSpace c = false)
    (l : List Char) : pyStrip (c :: l) = c :: rstripWith pyIsSpace l := by
  unfold pyStrip
  rw [List.dropWhile_cons_of_neg (by simp [hc]), rstripWith_cons_neg hc]

lemma pyStrip_rstrip (l : List Char) :
    pyStrip (rstripWith pyIsSpace l) = pyStrip l :=
  pyStrip_rstripWith l

lemma parse_line_leading_eq (post : List Char) :
    parse_line ('=' :: post) = some ([], pyStrip post) := by
  have heq : pyIsSpace '=' = false := by decide
  have hs : pyStrip ('=' :: post) = '=' :: rstripWith pyIsSpace post :=
    pyStrip_cons_not_space heq post
  simp only [parse_line, hs]
  rw [if_neg (by simp)]
  have hsplit : splitOnce '=' ('=' :: rstripWith pyIsSpace post) =
      some ([], rstripWith pyIsSpace post) := by
    rw [splitOnce, if_pos rfl]
  rw [hsplit]
  show some (pyStrip [], pyStrip (rstripWith pyIsSpace post)) = some ([], pyStrip post)
  rw [pyStrip_rstrip post]
  rfl

lemma tabParseLine_leading_tab (post : List Char) :
    tabParseLine ('\t' :: post) = some ([], rstripCRLF post) := by
  have hr : rstripCRLF ('\t' :: post) = '\t' :: rstripCRLF post := by
    show rstripWith isCRLF ('\t' :: post) = '\t' :: rstripWith isCRLF post
    exact rstripWith_cons_neg (by decide) post
  simp only [tabParseLine, hr]
  rw [if_neg (by simp)]
  have hsplit : splitOn '\t' ('\t' :: rstripCRLF post) =
      [] :: splitOn '\t' (rstripCRLF post) := by
    show splitOnAux '\t' ('\t' :: rstripCRLF post) [] =
      [] :: splitOnAux '\t' (rstripCRLF post) []
    rw [splitOnAux, if_pos rfl]
    rfl
  rw [hsplit]
  have hlen : ¬(([] :: splitOn '\t' (rstripCRLF post)).length < 2) := by
    have h1 : splitOn '\t' (rstripCRLF post) ≠ [] := splitOn_ne_nil _ _
    have h2 : 1 ≤ (splitOn '\t' (rstripCRLF post)).length := by
      cases hsp : splitOn '\t' (rstripCRLF post) with
      | nil => exact absurd hsp h1
      | cons x xs => simp
    simp only [List.length_cons]
    omega
  rw [if_neg hlen]
  simp only [List.headD_cons, List.tail_cons, Option.some.injEq, Prod.mk.injEq,
    true_and]
  exact join_splitOn '\t' (rstripCRLF post)

/-! ### Claim theorems -/

/-- Claim C1 (code bug): the claim "every in-place conversion with zero valid
records leaves the destination byte-identical, deletes the temp file and
returns Empty" holds for quizlet_convert.py's `convert_file`, but script.py's
`convert_folder` (lines 42-59) calls `os.replace(tmp, src)` unconditionally:
on a source with zero valid records (here the tab-less content `hello\n`) it
replaces the destination with the empty temp file and reports success,
destroying the original content. -/
theorem c1_script_zero_records_destroys :
    scriptConvertFile (("hello\n").toList) none = (⟨[], false⟩, Outcome.Converted 0)
    ∧ quizletConvertFile (("hello\n").toList) none
        = (⟨("hello\n").toList, false⟩, Outcome.Empty)
    ∧ ("hello\n").toList ≠ ([] : List Char) := by
  refine ⟨?_, ?_, ?_⟩ <;> decide

/-- Claim C2: for every in-place conversion (both quizlet_convert.py's
`convert_file` and script.py's per-file loop) in which an error is raised
during reading or writing (modelled by `some k`: an exception after `k`
records were written to the temp file), the handler leaves the original
destination content unchanged and the temporary file no longer exists, and
the outcome is the failure outcome. -/
theorem c2_failure_leaves_destination_unchanged (orig : List Char) (k : Nat) :
    quizletConvertFile orig (some k) = (⟨orig, false⟩, Outcome.Failed)
    ∧ scriptConvertFile orig (some k) = (⟨orig, false⟩, Outcome.Failed) :=
  ⟨quizletConvertFile_inject k, scriptConvertFile_inject k⟩

/-- Claim C3 (counterexample): running quizlet_convert.py's `convert_file`
twice is not idempotent in general.  For the input file `a\tb\tc\n` the first
run writes `"a","b\tc"\n` — with a literal tab preserved inside the quoted
definition — so the second run's line still contains a tab, parses to one
record, reports a converted (not Empty) outcome and rewrites the file to
different bytes. -/
theorem c3_counterexample :
    (quizletConvertFile (("a\tb\tc\n").toList) none).1.dest
        = ("\"a\",\"b\tc\"\n").toList
    ∧ (quizletConvertFile (("\"a\",\"b\tc\"\n").toList) none).2 = Outcome.Converted 1
    ∧ (quizletConvertFile (("\"a\",\"b\tc\"\n").toList) none).1.dest
        ≠ ("\"a\",\"b\tc\"\n").toList := by
  refine ⟨?_, ?_, ?_⟩ <;> decide

/-- Claim C3 (amended): for quizlet_convert.py's `convert_file`, on any input
file in which every physical line contains at most one tab (after stripping
the trailing newline), a second run on the converted file produces zero
records, surfaces the Empty outcome, and leaves the file byte-identical to
the first run's result with no temporary file left behind. -/
theorem c3_amended_idempotent (orig : List Char)
    (h : ∀ l ∈ pysplitlinesKeep orig, countChar '\t' (rstripCRLF l) ≤ 1) :
    quizletConvertFile ((quizletConvertFile orig none).1.dest) none
      = ((quizletConvertFile orig none).1, Outcome.Empty) := by
  by_cases hrec : tabRecords orig = []
  · rw [quizletConvertFile_empty hrec]
    exact quizletConvertFile_empty hrec
  · rw [quizletConvertFile_conv hrec]
    exact quizletConvertFile_empty (tabRecords_output_nil h)

/-- Witness for the amended C3 theorem at the concrete input `a\tb\n`. -/
theorem c3_amended_witness :
    (∀ l ∈ pysplitlinesKeep (("a\tb\n").toList),
      countChar '\t' (rstripCRLF l) ≤ 1)
    ∧ quizletConvertFile
        ((quizletConvertFile (("a\tb\n").toList) none).1.dest) none
      = ((quizletConvertFile (("a\tb\n").toList) none).1, Outcome.Empty) :=
  ⟨by decide, c3_amended_idempotent (("a\tb\n").toList) (by decide)⟩

/-- Claim C4: every line body emitted by either pipeline's writer — the tab
pipeline's `quote_field(term),quote_field(definition)` and the equals
pipeline's `csv.writer` row with `QUOTE_ALL` — parses under a standard
RFC-4180 record parser as exactly two double-quoted fields joined by a
single comma, for all field contents. -/
theorem c4_two_quoted_fields (t d : List Char) :
    parseRecordLine (tabRowBody t d)
        = some (stripOuterQuotes (pyStrip t), stripOuterQuotes (pyStrip d))
    ∧ parseRecordLine (csvRowBody t d) = some (t, d) :=
  ⟨parseRecordLine_two_fields _ _, parseRecordLine_two_fields _ _⟩

/-- Claim C5: `quote_field` is total (a Lean function), and for every input
string a standard RFC-4180 quoted-field parser decodes `quote_field s` back
to exactly the trimmed, unwrapped original text, consuming the whole field. -/
theorem c5_quote_roundtrip (s : List Char) :
    parseQuotedField (quote_field s) = some (stripOuterQuotes (pyStrip s), []) := by
  show parseQuotedField
      ('"' :: escapeQuotes (stripOuterQuotes (pyStrip s)) ++ ['"'])
    = some (stripOuterQuotes (pyStrip s), [])
  have h := parseQuotedField_quoted (stripOuterQuotes (pyStrip s)) [] (by simp)
  simpa using h

/-- Claim C6 (counterexample): in txt_to_csv.py's `convert_folder` the
`RuntimeError` raised by `read_text` for an undecodable file is not caught,
so it aborts the batch: with an undecodable file followed by a valid file,
no output at all is produced — the valid file's output, which `read_text`
and `write_csv` would have produced, is lost. -/
theorem c6_counterexample :
    read_text decGood = Except.ok [("a=b").toList]
    ∧ write_csv (cardsOf [("a=b").toList]) = ("\"a\",\"b\"\r\n").toList
    ∧ convertFolderEq [decBad, decGood] = ([], true) := by
  refine ⟨rfl, by decide, by decide⟩

/-- Claim C6 (amended): a decode failure on one file aborts the whole
equals-pipeline batch: exactly the files preceding the first failing file
(in iteration order) have their outputs produced, and no file after the
failing one is processed. -/
theorem c6_amended_abort (pre : List Dec) (f : Dec) (post : List Dec)
    (hpre : ∀ g ∈ pre, ∃ L, read_text g = Except.ok L)
    (hf : read_text f = Except.error ()) :
    convertFolderEq (pre ++ f :: post) = (pre.map outputOfFile, true) := by
  induction pre with
  | nil =>
    rw [List.nil_append, convertFolderEq, hf]
    rfl
  | cons g pre' ih =>
    obtain ⟨L, hL⟩ := hpre g (List.mem_cons_self g pre')
    have hpre' : ∀ x ∈ pre', ∃ L, read_text x = Except.ok L :=
      fun x hx => hpre x (List.mem_cons_of_mem g hx)
    rw [List.cons_append, convertFolderEq, hL, ih hpre', List.map_cons]
    have hout : outputOfFile g = write_csv (cardsOf L) := by
      rw [outputOfFile, hL]
    rw [hout]

/-- Witness for the amended C6 theorem: one readable file, then an
undecodable one, then another file that is never reached. -/
theorem c6_amended_witness :
    convertFolderEq ([decGood] ++ decBad :: [decUtf8Only])
      = ([decGood].map outputOfFile, true) :=
  c6_amended_abort [decGood] decBad [decUtf8Only]
    (by
      intro g hg
      rcases List.mem_singleton.mp hg with rfl
      exact ⟨[("a=b").toList], rfl⟩)
    rfl

/-- Claim C7: `read_text` attempts utf-8-sig, then utf-8, then cp949, in that
fixed order; it returns the lines decoded by the first encoding under which
the entire file decodes, and raises its read error if and only if all three
encodings fail. -/
theorem c7_encoding_fallback_order (dec : Dec) :
    (read_text dec = Except.error () ↔
      dec Encoding.utf8sig = none ∧ dec Encoding.utf8 = none ∧
        dec Encoding.cp949 = none)
    ∧ (∀ x, dec Encoding.utf8sig = some x → read_text dec = Except.ok x)
    ∧ (∀ x, dec Encoding.utf8sig = none → dec Encoding.utf8 = some x →
        read_text dec = Except.ok x)
    ∧ (∀ x, dec Encoding.utf8sig = none → dec Encoding.utf8 = none →
        dec Encoding.cp949 = some x → read_text dec = Except.ok x) := by
  cases h1 : dec Encoding.utf8sig with
  | some x => simp [read_text, encodings, firstSuccess, h1]
  | none =>
    cases h2 : dec Encoding.utf8 with
    | some x => simp [read_text, encodings, firstSuccess, h1, h2]
    | none =>
      cases h3 : dec Encoding.cp949 with
      | some x => simp [read_text, encodings, firstSuccess, h1, h2, h3]
      | none => simp [read_text, encodings, firstSuccess, h1, h2, h3]

/-- Witness for C7: a file that fails under utf-8-sig and decodes under
plain utf-8 is read with the second encoding. -/
theorem c7_witness : read_text decUtf8Only = Except.ok [("x=y").toList] :=
  (c7_encoding_fallback_order decUtf8Only).2.2.1 [("x=y").toList] rfl rfl

/-- Claim C8: the equals-pipeline splitter splits each non-blank line at the
first `=` only and trims both fields: the example line produces exactly the
claimed record and output line body; in general a line whose stripped form is
`pre ++ = ++ post` with no `=` in `pre` yields `(strip pre, strip post)`;
blank lines and lines without `=` yield the skip signal. -/
theorem c8_split_first_equals :
    parse_line (("Café=a coffee shop, \"cozy\"").toList)
        = some (("Café").toList, ("a coffee shop, \"cozy\"").toList)
    ∧ csvRowBody (("Café").toList) (("a coffee shop, \"cozy\"").toList)
        = ("\"Café\",\"a coffee shop, \"\"cozy\"\"\"").toList
    ∧ (∀ line pre post : List Char, pyStrip line = pre ++ '=' :: post →
        ('=') ∉ pre → parse_line line = some (pyStrip pre, pyStrip post))
    ∧ (∀ line : List Char, pyStrip line = [] → parse_line line = none)
    ∧ (∀ line : List Char, ('=') ∉ pyStrip line → parse_line line = none) := by
  refine ⟨by decide, by decide, ?_, ?_, ?_⟩
  · intro line pre post hsplit hpre
    simp only [parse_line, hsplit]
    rw [if_neg (by simp), splitOnce_first hpre post]
  · intro line h
    simp only [parse_line, h]
    rfl
  · intro line h
    simp only [parse_line]
    by_cases h0 : pyStrip line = []
    · rw [if_pos h0]
    · rw [if_neg h0, splitOnce_not_mem h]

/-- Witness for C8's universally quantified split clause at `x=y`. -/
theorem c8_witness : parse_line (("x=y").toList)
    = some (("x").toList, ("y").toList) := by
  have h := c8_split_first_equals.2.2.1 (("x=y").toList) (("x").toList)
    (("y").toList) (by decide) (by decide)
  exact h.trans (by decide)

/-- Claim C9 (counterexample): in the equals pipeline, `csv.writer` (default
line terminator) separates consecutive records by the two characters
`\r\n`, not by a single newline character, so the claim fails for every
output of `write_csv` with at least two records. -/
theorem c9_counterexample :
    write_csv [((("a").toList), (("b").toList)), ((("c").toList), (("d").toList))]
        = csvRowBody (("a").toList) (("b").toList) ++ '\r' :: '\n' ::
            (csvRowBody (("c").toList) (("d").toList) ++ ['\r', '\n'])
    ∧ write_csv [((("a").toList), (("b").toList)), ((("c").toList), (("d").toList))]
        ≠ csvRowBody (("a").toList) (("b").toList) ++ '\n' ::
            (csvRowBody (("c").toList) (("d").toList) ++ ['\n']) := by
  refine ⟨by decide, by decide⟩

/-- Claim C9 (amended): in both pipelines there is no header row and no blank
line between records; consecutive records are separated by exactly one line
terminator — a single `\n` in the tab pipeline, and the two-character
sequence `\r\n` in the equals pipeline — because the record bodies
themselves contain no newline characters when the fields contain none. -/
theorem c9_amended_separators (t d : List Char) (rs : List (List Char × List Char))
    (h1 : ('\n') ∉ t) (h2 : ('\n') ∉ d) (h3 : ('\r') ∉ t) (h4 : ('\r') ∉ d) :
    tabWrite ((t, d) :: rs) = tabRowBody t d ++ '\n' :: tabWrite rs
    ∧ write_csv ((t, d) :: rs) = csvRowBody t d ++ '\r' :: '\n' :: write_csv rs
    ∧ tabWrite [] = [] ∧ write_csv [] = []
    ∧ ('\n') ∉ tabRowBody t d
    ∧ ('\n') ∉ csvRowBody t d ∧ ('\r') ∉ csvRowBody t d := by
  refine ⟨?_, ?_, rfl, rfl, ?_, ?_, ?_⟩
  · simp [tabWrite, concatAll, tabEmitLine]
  · simp [write_csv, concatAll, csvRow]
  · intro hc
    rcases mem_tabRowBody hc with h | h | h | h
    · exact absurd h (by decide)
    · exact absurd h (by decide)
    · exact h1 h
    · exact h2 h
  · intro hc
    rcases mem_csvRowBody hc with h | h | h | h
    · exact absurd h (by decide)
    · exact absurd h (by decide)
    · exact h1 h
    · exact h2 h
  · intro hc
    rcases mem_csvRowBody hc with h | h | h | h
    · exact absurd h (by decide)
    · exact absurd h (by decide)
    · exact h3 h
    · exact h4 h

/-- Witness for the amended C9 theorem at concrete fields `a`, `b`. -/
theorem c9_amended_witness :
    ('\n') ∉ tabRowBody (("a").toList) (("b").toList) :=
  (c9_amended_separators (("a").toList) (("b").toList) []
    (by decide) (by decide) (by decide) (by decide)).2.2.2.2.1

/-- Claim C10: a line that starts with the delimiter but may have content
after it yields a record whose term is the empty string, not a skip signal:
in equals mode `parse_line` maps `=post` to `("", strip post)`, in tab mode
the loop body maps `\tpost` to `("", rstrip post)`, and both writers render
the empty term as an empty quoted field `""` followed by the quoted
definition. -/
theorem c10_empty_term_records (post d : List Char) :
    parse_line ('=' :: post) = some ([], pyStrip post)
    ∧ tabParseLine ('\t' :: post) = some ([], rstripCRLF post)
    ∧ csvRowBody [] d = '"' :: '"' :: ',' :: csvQuoteAll d
    ∧ tabRowBody [] d = '"' :: '"' :: ',' :: quote_field d := by
  refine ⟨parse_line_leading_eq post, tabParseLine_leading_tab post, rfl, rfl⟩
